import Mathlib

/- Shallow embedding of the early-boot memory subsystem of the rex-kernel
repository: src/kernel/src/memory.rs (address types), src/kernel/src/pmm.rs
(physical frame allocator) and src/kernel/src/x64/page_table.rs (page-table
hierarchy).

Conventions of the embedding:
* Machine integers (u64) are natural numbers; where the source performs
  wrapping 64-bit arithmetic the wrap is written explicitly with a mod by
  2 ^ 64 (overflow of a release-mode sub or mul is the two-complement
  result).
* A Rust panic or failed assert is Except.error carrying the panic message;
  functions that cannot panic keep their plain type.
* The bootloader-provided globals DIRECT_MAP_START and PHYSICAL_MEMORY_SIZE
  (OnceCell values set once in main.rs) are passed as explicit parameters
  direct_map_start and physical_memory_size.
* Raw pointers into direct-mapped memory are represented by the pointed-to
  physical address (the direct map is the bijection v = p + offset; the
  bounds and alignment asserts of as_pointer are noted where they are
  elided).  Null pointers are address 0.
-/

namespace RexKernel

/-! ## VirtualAddress (memory.rs)

The source declares VirtualAddress as a bitfield over u64 with fields
page_offset (bits 11:0), page_table_index (20:12), page_directory_index
(29:21), pdpt_index (38:30), pml4_index (47:39) and sign_extension (63:48).
Each accessor shifts the raw value right to the field base and masks to the
field width, exactly as the generated bitfield accessors do. -/

namespace VirtualAddress

/-- Bits 11:0 of a virtual address: field page_offset. -/
def page_offset (v : ℕ) : ℕ := (v >>> 0) % 2 ^ 12

/-- Bits 20:12: field page_table_index. -/
def page_table_index (v : ℕ) : ℕ := (v >>> 12) % 2 ^ 9

/-- Bits 29:21: field page_directory_index. -/
def page_directory_index (v : ℕ) : ℕ := (v >>> 21) % 2 ^ 9

/-- Bits 38:30: field pdpt_index. -/
def pdpt_index (v : ℕ) : ℕ := (v >>> 30) % 2 ^ 9

/-- Bits 47:39: field pml4_index. -/
def pml4_index (v : ℕ) : ℕ := (v >>> 39) % 2 ^ 9

/-- Bits 63:48: field sign_extension. -/
def sign_extension (v : ℕ) : ℕ := (v >>> 48) % 2 ^ 16

/-- VirtualAddress::create (memory.rs): builds the bitfield view of the raw
u64 and asserts the canonical-address condition

  (sign_extension == 0 and pml4_index and 1 shl 8 == 0) or
  (sign_extension == 0xFFFF and pml4_index and 1 shl 8 == 1 shl 8);

the failed assert (a panic) is Except.error, otherwise the address is
returned unchanged. -/
def create (v : ℕ) : Except String ℕ :=
  if (sign_extension v = 0 ∧ pml4_index v &&& (1 <<< 8) = 0)
      ∨ (sign_extension v = 0xFFFF ∧ pml4_index v &&& (1 <<< 8) = 1 <<< 8) then
    Except.ok v
  else
    Except.error "Attempted to create non canonical virtual address"

end VirtualAddress

/-! ## PhysicalAddress and DirectMappedAddress (memory.rs) -/

namespace PhysicalAddress

/-- PhysicalAddress::new (memory.rs): asserts address < PHYSICAL_MEMORY_SIZE
and 0x1000 <= address, then stores the address.  Both asserts are panics. -/
def new (physical_memory_size : ℕ) (address : ℕ) : Except String ℕ :=
  if ¬ address < physical_memory_size then
    Except.error "Attempted to construct PhysicalAddress with address greater than PHYSICAL_MEMORY_SIZE"
  else if ¬ 0x1000 ≤ address then
    Except.error "Attempted to construct PhysicalAddress in page 0"
  else
    Except.ok address

end PhysicalAddress

namespace DirectMappedAddress

/-- DirectMappedAddress::from_virtual (memory.rs).  The source asserts
virtual_address > DIRECT_MAP_START, computes the local
physical_address = virtual_address - DIRECT_MAP_START, asserts
physical_address < PHYSICAL_MEMORY_SIZE, and then constructs the stored
physical address with PhysicalAddress::new applied to
virtual_address.address() - the raw virtual address, not the computed
physical_address local.  The embedding reproduces that literally; the
result is the stored physical address field. -/
def from_virtual (direct_map_start physical_memory_size : ℕ) (virtual_address : ℕ) :
    Except String ℕ :=
  if ¬ direct_map_start < virtual_address then
    Except.error "Attempted to construct DirectMappedAddress with address lower than DIRECT_MAP_START"
  else
    let physical_address := virtual_address - direct_map_start
    if ¬ physical_address < physical_memory_size then
      Except.error "assertion failed: physical_address < PHYSICAL_MEMORY_SIZE"
    else
      PhysicalAddress.new physical_memory_size virtual_address

/-- DirectMappedAddress::try_from_virtual (memory.rs): returns None when
virtual_address <= DIRECT_MAP_START or when the computed physical address
reaches PHYSICAL_MEMORY_SIZE, and otherwise constructs the PhysicalAddress
by a direct struct literal (bypassing the checks of PhysicalAddress::new)
holding virtual_address - DIRECT_MAP_START. -/
def try_from_virtual (direct_map_start physical_memory_size : ℕ) (virtual_address : ℕ) :
    Option ℕ :=
  if virtual_address ≤ direct_map_start then
    none
  else
    let physical_address := virtual_address - direct_map_start
    if physical_memory_size ≤ physical_address then
      none
    else
      some physical_address

end DirectMappedAddress

/-! ## Frame and MemoryMapAllocator (pmm.rs) -/

namespace Frame

/-- Frame::from_starting_address (pmm.rs): asserts
starting_address and 0xFFF == 0 and stores the address.  A Frame value
is represented by its starting address. -/
def from_starting_address (starting_address : ℕ) : Except String ℕ :=
  if starting_address &&& 0xFFF = 0 then
    Except.ok starting_address
  else
    Except.error "assertion failed: starting_address and 0xFFF == 0"

end Frame

/-- The in-place free-list node header (struct LinkedListNode, pmm.rs):
size counts pages of the run, next is the pointer to the next node
(0 is the null pointer). -/
structure LinkedListNode where
  size : ℕ
  next : ℕ
deriving DecidableEq, Repr

/-- One entry of the bootloader memory map (limine MemmapEntry as consumed
by pmm.rs): base and len in bytes, usable is typ == Usable. -/
structure MemmapEntry where
  base : ℕ
  len : ℕ
  usable : Bool
deriving DecidableEq, Repr

/-- The allocator state (struct MemoryMapAllocator, pmm.rs): the direct-map
offset, the pointer to the first free-list node (0 = null), and the
direct-mapped memory the nodes live in, read and written at LinkedListNode
granularity (mem a is the node header stored at direct-mapped address a).
The memory_map reference field only matters inside new and is not carried
in the state. -/
structure MemoryMapAllocator where
  physical_memory_offset : ℕ
  first_node : ℕ
  mem : ℕ → LinkedListNode

namespace MemoryMapAllocator

/-- MemoryMapAllocator::new (pmm.rs).  physical_start_address is the base of
the first usable entry (0 when none).  The following for loop reads the
node at entry.base + physical_memory_offset into the local
linked_list_node by value, assigns linked_list_node.size and
linked_list_node.next on that local copy, and never writes the copy back:
memory is left unchanged by the loop, so the returned state carries mem
as given.  (The peekable iterator the loop consults for next is also never
advanced, so every computed next would have been the first usable entry.)
The returned first_node is physical_start_address + physical_memory_offset
(wrapping u64 add). -/
def new (memory_map : List MemmapEntry) (physical_memory_offset : ℕ)
    (mem : ℕ → LinkedListNode) : MemoryMapAllocator :=
  let physical_start_address :=
    match memory_map.find? (fun e => e.usable) with
    | some e => e.base
    | none => 0
  { physical_memory_offset := physical_memory_offset
    first_node := (physical_start_address + physical_memory_offset) % 2 ^ 64
    mem := mem }

/-- FrameAllocator::allocate for MemoryMapAllocator (pmm.rs, lines 74-95).
The source panics when the first_node pointer is null; returns the frame
with starting address 0 (a null frame, per the source comment: if no pages
are available we return a null pointer) when the head node has a null next
pointer, leaving the state unchanged; when the head run has size 1 it
advances first_node to next and returns the node address as a frame
(no clearing write is performed on the consumed page); otherwise it
computes the last-page address (size - 1) * 0x1000 + node physical address
and returns it - the decrement first_node.size -= 1 hits only the local
copy obtained by read() and is never written back, so memory and
first_node are unchanged in that branch. -/
def allocate (s : MemoryMapAllocator) : Except String (ℕ × MemoryMapAllocator) :=
  if s.first_node = 0 then
    Except.error "First node is null!"
  else
    let first_node := s.mem s.first_node
    if first_node.next = 0 then
      match Frame.from_starting_address 0 with
      | Except.error e => Except.error e
      | Except.ok f => Except.ok (f, s)
    else
      let first_node_physical_address :=
        (s.first_node + 2 ^ 64 - s.physical_memory_offset % 2 ^ 64) % 2 ^ 64
      if first_node.size = 1 then
        match Frame.from_starting_address first_node_physical_address with
        | Except.error e => Except.error e
        | Except.ok f => Except.ok (f, { s with first_node := first_node.next })
      else
        let frame_address :=
          ((first_node.size + 2 ^ 64 - 1) % 2 ^ 64 * 0x1000
            + first_node_physical_address) % 2 ^ 64
        -- first_node.size -= 1 : update of the dead local copy, no effect
        match Frame.from_starting_address frame_address with
        | Except.error e => Except.error e
        | Except.ok f => Except.ok (f, s)

/-- Runs allocate n + 1 times from state s, threading the state; a panic
(Except.error) ends the run and is the result of every later call, since
control never returns after a panic.  The result is the outcome of the
last call. -/
def allocateRun (s : MemoryMapAllocator) : ℕ → Except String (ℕ × MemoryMapAllocator)
  | 0 => allocate s
  | n + 1 =>
    match allocate s with
    | Except.error e => Except.error e
    | Except.ok (_, s') => allocateRun s' n

/-- The exhaustion signal of allocate as the source defines it: either the
call panics, or it returns the null frame (starting address 0), which is
what the source comment documents as the no-pages-available result. -/
def reportsExhaustion : Except String (ℕ × MemoryMapAllocator) → Bool
  | Except.error _ => true
  | Except.ok (f, _) => f == 0

end MemoryMapAllocator

/-- The free list reachable from pointer p in node memory mem, cut off at
the given fuel; p = 0 is the null pointer ending the list.  Used to state
properties of the list the allocator threads through free memory. -/
def freeList (mem : ℕ → LinkedListNode) : ℕ → ℕ → List LinkedListNode
  | 0, _ => []
  | _ + 1, 0 => []
  | fuel + 1, p => mem p :: freeList mem fuel (mem p).next

/-- Total number of usable pages reported by a memory map: the sum over
usable entries of len shifted right by 12 (bytes to pages), as new
computes per-entry sizes. -/
def usablePages (memory_map : List MemmapEntry) : ℕ :=
  ((memory_map.filter (fun e => e.usable)).map (fun e => e.len >>> 12)).sum

/-! ## Page-table hierarchy (x64/page_table.rs)

A table of any level (PML4, Pdpt, PageDirectory, PageTable) is one frame
holding 512 raw u64 entries.  The heap maps the physical starting address
of a table frame to its contents; reading through an entry follows the
direct map (virtual = physical + DIRECT_MAP_START), whose translation and
the bounds and alignment asserts of as_pointer are the identity on the
physical address and are elided here.  Raw entry values keep the hardware
bit layout of the bitfields in the source; the accessors below decode and
encode it with the same shifts and masks. -/

/-- A page table of any level: 512 raw u64 entries. -/
abbrev Table : Type := Fin 512 → ℕ

/-- Direct-mapped memory holding page tables, indexed by the physical
starting address of the table frame. -/
abbrev Heap : Type := ℕ → Table

/-- A table with all 512 entries zeroed, as the new of every level writes. -/
def Table.zero : Table := fun _ => 0

/-- Heap update: the table at address a is replaced by t. -/
def hupd (h : Heap) (a : ℕ) (t : Table) : Heap := fun x => if x = a then t else h x

/-- Table update: entry i is replaced by e. -/
def tupd (t : Table) (i : Fin 512) (e : ℕ) : Table := fun j => if j = i then e else t j

/-- Entry index from a 9-bit index field value. -/
def idx (n : ℕ) : Fin 512 := ⟨n % 512, Nat.mod_lt _ (by norm_num)⟩

/-- The present bit (bit 0) of an entry of any level. -/
def present (e : ℕ) : Bool := e.testBit 0

/-- The page-size bit (bit 7), the discriminant used by
PdptEntryUnion::get_entry and PageDirectoryEntryUnion::get_entry between
the next-level and huge-page variants. -/
def page_size (e : ℕ) : Bool := e.testBit 7

/-- The address() accessor shared by Pml4Entry, PdptEntryPageDirectory,
PageDirectoryEntryPageTable and PageTableEntry: internal_addr is bits
51:12, and the physical address is internal_addr shl 12. -/
def entry_address (e : ℕ) : ℕ := ((e >>> 12) % 2 ^ 40) <<< 12

/-- The set_address / set_internal_addr setter of the same entry types:
bits 51:12 are replaced by address shr 12, all other bits kept. -/
def set_address (e : ℕ) (a : ℕ) : ℕ :=
  (e &&& ((2 ^ 64 - 1) ^^^ ((2 ^ 40 - 1) <<< 12))) ||| (((a >>> 12) % 2 ^ 40) <<< 12)

/-- A single-bit bitfield setter (set_present, set_read_write,
set_execute_disable): sets or clears bit i. -/
def set_bit (e : ℕ) (i : ℕ) (b : Bool) : ℕ :=
  if b then e ||| (1 <<< i) else e &&& ((2 ^ 64 - 1) ^^^ (1 <<< i))

/-- Table creation, identical for Pdpt::new, PageDirectory::new,
PageTable::new (and PML4::new): allocate one frame from the global
allocator (the unwrap panics when the allocator is exhausted), take its
direct-mapped pointer and zero all 512 entries.  The global frame
allocator is abstracted as the list of frame starting addresses it will
hand out in order (pmm.rs calls go through FRAME_ALLOCATOR ...
allocate().unwrap()).  Returns the new table address, the heap after the
zeroing writes, and the remaining supply. -/
def newTable (h : Heap) (free : List ℕ) : Except String (ℕ × Heap × List ℕ) :=
  match free with
  | [] => Except.error "called Option::unwrap on a None value"
  | a :: rest => Except.ok (a, hupd h a Table.zero, rest)

/-- One level step of PML4::map: when the entry is present, descend to the
table it addresses (after get_entry dispatch: with check_huge set, a
present entry whose page-size bit is set is the huge-page variant and map
panics "Tried to map already mapped page!"); when absent, create the next
level with new.  In the absent case the source also updates the local copy
of the parent entry (set_pdpt / set_page_directory / set_page_table and
set_present), but the copy - obtained by value from self.entries - is
never stored back, so the parent table is unchanged in the heap. -/
def childOrNew (h : Heap) (free : List ℕ) (e : ℕ) (check_huge : Bool) :
    Except String (ℕ × Heap × List ℕ) :=
  if present e then
    if check_huge ∧ page_size e = true then
      Except.error "Tried to map already mapped page!"
    else
      Except.ok (entry_address e, h, free)
  else
    newTable h free

/-- PML4::map (page_table.rs, lines 449-500): walks the four levels with
the index fields of the virtual address, creating missing levels, and at
the leaf asserts the entry is not present, then builds the new leaf entry
with set_frame (whose set_address asserts the frame address is
frame-aligned), set_read_write and set_execute_disable.  Every entry
update in this function is performed on a by-value local copy of the
entry and never written back (see childOrNew and the leaf comment), which
the embedding reproduces. -/
def PML4.map (h : Heap) (free : List ℕ) (root : ℕ) (frame : ℕ)
    (virtual_address : ℕ) (writable no_execute : Bool) :
    Except String (Heap × List ℕ) :=
  let pml4_entry := h root (idx (VirtualAddress.pml4_index virtual_address))
  match childOrNew h free pml4_entry false with
  | Except.error e => Except.error e
  | Except.ok (pdpt, h1, free1) =>
    let pdpt_entry := h1 pdpt (idx (VirtualAddress.pdpt_index virtual_address))
    match childOrNew h1 free1 pdpt_entry true with
    | Except.error e => Except.error e
    | Except.ok (page_directory, h2, free2) =>
      let page_directory_entry :=
        h2 page_directory (idx (VirtualAddress.page_directory_index virtual_address))
      match childOrNew h2 free2 page_directory_entry true with
      | Except.error e => Except.error e
      | Except.ok (page_table, h3, free3) =>
        let page_table_entry :=
          h3 page_table (idx (VirtualAddress.page_table_index virtual_address))
        if present page_table_entry then
          Except.error "tried to map already mapped page"
        else if ¬ frame &&& 0xFFF = 0 then
          Except.error "Attempted to map page to non-frame-aligned physical address"
        else
          -- set_frame, set_read_write and set_execute_disable build the new
          -- leaf entry in the local copy, which is dropped on return
          let _page_table_entry :=
            set_bit (set_bit (set_address page_table_entry frame) 1 writable) 63 no_execute
          Except.ok (h3, free3)

/-- Calls PML4::map twice with the same virtual address on the same
hierarchy, threading heap and frame supply. -/
def PML4.mapTwice (h : Heap) (free : List ℕ) (root : ℕ) (frame : ℕ)
    (virtual_address : ℕ) (writable no_execute : Bool) :
    Except String (Heap × List ℕ) :=
  match PML4.map h free root frame virtual_address writable no_execute with
  | Except.error e => Except.error e
  | Except.ok (h1, free1) =>
    PML4.map h1 free1 root frame virtual_address writable no_execute

/-! ### Observation functions

The functions below are the spec-level observables of a hierarchy: the set
of table frames it reaches and the list of present leaf mappings it
encodes (the enumeration of §4.3 - the source iterator is unfinished, see
PageTableIterator.next below, so the enumeration is written out from the
spec: present huge entries of a Pdpt map 1GB pages, of a PageDirectory 2MB
pages, present PageTable entries map 4KB frames, absent branches are
skipped). -/

/-- The physical address of the 1GB page mapped by a PdptEntryHugePage:
internal_addr is bits 51:30, shifted back by 30. -/
def hugePageAddress1G (e : ℕ) : ℕ := ((e >>> 30) % 2 ^ 22) <<< 30

/-- The physical address of the 2MB page mapped by a
PageDirectoryEntryHugePage: internal_addr is bits 51:21, shifted back. -/
def hugePageAddress2M (e : ℕ) : ℕ := ((e >>> 21) % 2 ^ 31) <<< 21

/-- The virtual-address contribution at the top level: the pml4 index
field shifted to bits 47:39, sign-extended when bit 47 (index bit 8) is
set. -/
def va_base (i : Fin 512) : ℕ :=
  (if 256 ≤ i.1 then 0xFFFF <<< 48 else 0) + (i.1 <<< 39)

/-- The table frames reached by the entries of one table: child tables of
present entries, skipping huge-page entries when the level has them. -/
def levelReachT (childReach : Heap → ℕ → List ℕ) (huge : Bool) (h : Heap) (t : Table) :
    List ℕ :=
  (List.finRange 512).flatMap (fun i =>
    let e := t i
    if present e = true then
      if huge = true ∧ page_size e = true then []
      else childReach h (entry_address e)
    else [])

/-- The leaf mappings contributed by the entries of one table, for a level
whose entries at index i cover the virtual range starting at vaOf vb i:
huge entries (when the level has them) map the page at hugeAddr, other
present entries delegate to the child table. -/
def levelMapsT (childMaps : Heap → ℕ → ℕ → List (ℕ × ℕ)) (huge : Bool)
    (hugeAddr : ℕ → ℕ) (vaOf : ℕ → Fin 512 → ℕ) (h : Heap) (t : Table) (vb : ℕ) :
    List (ℕ × ℕ) :=
  (List.finRange 512).flatMap (fun i =>
    let e := t i
    if present e = true then
      if huge = true ∧ page_size e = true then [(vaOf vb i, hugeAddr e)]
      else childMaps h (entry_address e) (vaOf vb i)
    else [])

/-- A page table reaches only its own frame. -/
def ptReach (h : Heap) (a : ℕ) : List ℕ := [a]

/-- Present-entry mappings of a page table at address a. -/
def ptMappings (h : Heap) (a : ℕ) (vb : ℕ) : List (ℕ × ℕ) :=
  (List.finRange 512).flatMap (fun i =>
    let e := h a i
    if present e = true then [(vb + (i.1 <<< 12), entry_address e)] else [])

/-- Table frames reached by a page directory at address a. -/
def pdReach (h : Heap) (a : ℕ) : List ℕ :=
  a :: levelReachT ptReach true h (h a)

/-- Leaf mappings of a page directory at address a. -/
def pdMappings (h : Heap) (a : ℕ) (vb : ℕ) : List (ℕ × ℕ) :=
  levelMapsT ptMappings true hugePageAddress2M (fun vb i => vb + (i.1 <<< 21)) h (h a) vb

/-- Table frames reached by a Pdpt at address a. -/
def pdptReach (h : Heap) (a : ℕ) : List ℕ :=
  a :: levelReachT pdReach true h (h a)

/-- Leaf mappings of a Pdpt at address a. -/
def pdptMappings (h : Heap) (a : ℕ) (vb : ℕ) : List (ℕ × ℕ) :=
  levelMapsT pdMappings true hugePageAddress1G (fun vb i => vb + (i.1 <<< 30)) h (h a) vb

/-- Leaf mappings of a PML4 at address a above virtual base vb. -/
def pml4Mappings (h : Heap) (a : ℕ) (vb : ℕ) : List (ℕ × ℕ) :=
  levelMapsT pdptMappings false (fun _ => 0) (fun vb i => vb + va_base i) h (h a) vb

/-- All table frames of the hierarchy rooted at root: the root frame and
every intermediate table reached through present non-huge entries. -/
def reach (h : Heap) (root : ℕ) : List ℕ :=
  root :: levelReachT pdptReach false h (h root)

/-- The present leaf mappings of the hierarchy rooted at root, as
(virtual address, physical frame address) pairs. -/
def mappings (h : Heap) (root : ℕ) : List (ℕ × ℕ) :=
  pml4Mappings h root 0

/-! ### The iterator (PageTableIterator::next, lines 568-609)

The source function is unfinished: after resolving a present PML4 entry
and a present entry at the next check it reaches the trailing
  let page_directory = pdpt.entries[self.current.pdpt_index()];
  // Todo, handle huge pages.
with no value returned and no yield of any mapping anywhere in the body
(no code path constructs Some).  The embedding models reaching that
unfinished tail as a panic of an unimplemented path.  Note also that the
second presence check indexes the PML4 entries (self.page_table.entries)
with pdpt_index, and that the first step advances current by 0x1000 before
any check, so virtual address 0 is never examined.  The recursion
(return self.next()) is given explicit fuel. -/

/-- The set_pml4_index setter of the VirtualAddress bitfield. -/
def set_pml4_index (v n : ℕ) : ℕ :=
  (v &&& ((2 ^ 64 - 1) ^^^ ((2 ^ 9 - 1) <<< 39))) ||| ((n % 2 ^ 9) <<< 39)

/-- The set_pdpt_index setter of the VirtualAddress bitfield. -/
def set_pdpt_index (v n : ℕ) : ℕ :=
  (v &&& ((2 ^ 64 - 1) ^^^ ((2 ^ 9 - 1) <<< 30))) ||| ((n % 2 ^ 9) <<< 30)

/-- The set_page_directory_index setter of the VirtualAddress bitfield. -/
def set_page_directory_index (v n : ℕ) : ℕ :=
  (v &&& ((2 ^ 64 - 1) ^^^ ((2 ^ 9 - 1) <<< 21))) ||| ((n % 2 ^ 9) <<< 21)

/-- The set_page_table_index setter of the VirtualAddress bitfield. -/
def set_page_table_index (v n : ℕ) : ℕ :=
  (v &&& ((2 ^ 64 - 1) ^^^ ((2 ^ 9 - 1) <<< 12))) ||| ((n % 2 ^ 9) <<< 12)

/-- PageTableIterator::next.  The iterator state is the current virtual
address; the result pairs the yielded item (never produced, see above)
with the updated current address.  A fresh iterator (PML4::iterator)
starts with current = VirtualAddress::create(0). -/
def PageTableIterator.next (h : Heap) (root : ℕ) :
    ℕ → ℕ → Except String (Option (ℕ × ℕ) × ℕ)
  | 0, _ => Except.error "recursion fuel exhausted"
  | fuel + 1, current =>
    let x := current
    -- overflowing_add: on u64 overflow the iterator is done
    if 2 ^ 64 ≤ x + 0x1000 then Except.ok (none, current)
    else
      match VirtualAddress.create (x + 0x1000) with
      | Except.error e => Except.error e
      | Except.ok cur =>
        if present (h root (idx (VirtualAddress.pml4_index cur))) = false then
          if VirtualAddress.pml4_index cur = 1 <<< 9 then Except.ok (none, cur)
          else
            let cur1 := set_page_table_index (set_page_directory_index
              (set_pdpt_index (set_pml4_index cur (VirtualAddress.pml4_index cur + 1)) 0) 0) 0
            PageTableIterator.next h root fuel cur1
        else
          -- let pdpt = ... .pdpt(): the child pointer, unused before the
          -- unfinished tail
          if present (h root (idx (VirtualAddress.pdpt_index cur))) = false then
            if VirtualAddress.pdpt_index cur = 1 <<< 9 then
              if VirtualAddress.pml4_index cur = 1 <<< 9 then Except.ok (none, cur)
              else
                let cur1 := set_page_table_index (set_page_directory_index
                  (set_pdpt_index (set_pml4_index cur (VirtualAddress.pml4_index cur + 1)) 0) 0) 0
                let cur2 := set_page_table_index (set_page_directory_index
                  (set_pdpt_index cur1 (VirtualAddress.pdpt_index cur1 + 1)) 0) 0
                PageTableIterator.next h root fuel cur2
            else
              let cur2 := set_page_table_index (set_page_directory_index
                (set_pdpt_index cur (VirtualAddress.pdpt_index cur + 1)) 0) 0
              PageTableIterator.next h root fuel cur2
          else
            Except.error "not yet implemented: handle huge pages"

/-! ### Deep copy

Modelled from the spec: PML4::copy and the per-level copies (spec.md §4.3,
Deep copy) are described there but absent from the source tree - no copy
method exists in page_table.rs.  Following the words of the spec, each
level allocates a fresh frame for the new table, then for every entry: if
absent, the raw (zero) entry is copied; if huge-page, the entry is copied
verbatim (the frame is shared); otherwise the referenced child is
recursively deep-copied and the address field of the new entry is
rewritten to the new child.  At the leaf level the whole table (its frame
mappings) is copied verbatim.  The fresh frames are taken from the same
abstract supply as newTable; the new tables are collected as a write list
whose application to the heap gives the copied hierarchy - the copy reads
only source tables and writes only fresh frames, so the batch application
equals the sequential writes of an in-place implementation. -/

/-- Deep copy of a leaf page table: one fresh frame holding a verbatim
copy of the 512 entries. -/
def copyPageTable (h : Heap) (free : List ℕ) (addr : ℕ) :
    Except String (ℕ × List (ℕ × Table) × List ℕ) :=
  match free with
  | [] => Except.error "called Option::unwrap on a None value"
  | a :: rest => Except.ok (a, [(a, h addr)], rest)

/-- The per-entry walk of a level copy: builds the new table t entry by
entry over the index list, collecting child writes and consuming the
supply.  child is the deep copy of the next level; huge tells whether this
level has huge-page entries (copied verbatim). -/
def copyEntries (child : Heap → List ℕ → ℕ → Except String (ℕ × List (ℕ × Table) × List ℕ))
    (huge : Bool) (h : Heap) (addr : ℕ) :
    List (Fin 512) → Table → List (ℕ × Table) → List ℕ →
      Except String (Table × List (ℕ × Table) × List ℕ)
  | [], t, ws, free => Except.ok (t, ws, free)
  | i :: is, t, ws, free =>
    let e := h addr i
    if present e = false then
      copyEntries child huge h addr is (tupd t i e) ws free
    else if huge = true ∧ page_size e = true then
      copyEntries child huge h addr is (tupd t i e) ws free
    else
      match child h free (entry_address e) with
      | Except.error msg => Except.error msg
      | Except.ok (c, ws1, free1) =>
        copyEntries child huge h addr is (tupd t i (set_address e c)) (ws ++ ws1) free1

/-- Deep copy of one level: a fresh frame for the new table, then the
per-entry walk over all 512 indices. -/
def copyLevel (child : Heap → List ℕ → ℕ → Except String (ℕ × List (ℕ × Table) × List ℕ))
    (huge : Bool) (h : Heap) (free : List ℕ) (addr : ℕ) :
    Except String (ℕ × List (ℕ × Table) × List ℕ) :=
  match free with
  | [] => Except.error "called Option::unwrap on a None value"
  | a :: rest =>
    match copyEntries child huge h addr (List.finRange 512) Table.zero [] rest with
    | Except.error e => Except.error e
    | Except.ok (t, ws, free1) => Except.ok (a, (a, t) :: ws, free1)

/-- Deep copy of a page directory (huge 2MB entries copied verbatim). -/
def copyPageDirectory : Heap → List ℕ → ℕ →
    Except String (ℕ × List (ℕ × Table) × List ℕ) :=
  copyLevel copyPageTable true

/-- Deep copy of a Pdpt (huge 1GB entries copied verbatim). -/
def copyPdpt : Heap → List ℕ → ℕ →
    Except String (ℕ × List (ℕ × Table) × List ℕ) :=
  copyLevel copyPageDirectory true

/-- Deep copy of a whole hierarchy from its PML4. -/
def PML4.copy : Heap → List ℕ → ℕ →
    Except String (ℕ × List (ℕ × Table) × List ℕ) :=
  copyLevel copyPdpt false

/-- Applies the write list of a copy to the heap: the table at a written
address is the (first) written table, every other address is unchanged. -/
def applyWrites (ws : List (ℕ × Table)) (h : Heap) : Heap :=
  fun x =>
    match ws.lookup x with
    | some t => t
    | none => h x

/-- Specification predicate for a level copier: on success the consumed
frames are exactly the keys of the write list (in order), the new table
address is one of them, and for every heap H that realizes the write list,
the copied subtree at the new address has the same leaf mappings as the
source subtree and reaches only written frames. -/
def CopierOk (copier : Heap → List ℕ → ℕ → Except String (ℕ × List (ℕ × Table) × List ℕ))
    (childMaps : Heap → ℕ → ℕ → List (ℕ × ℕ))
    (childReach : Heap → ℕ → List ℕ) : Prop :=
  ∀ (h : Heap) (free : List ℕ) (addr a : ℕ) (ws : List (ℕ × Table)) (free1 : List ℕ),
    (∀ b ∈ free, b &&& 0xFFF = 0 ∧ b < 2 ^ 52) →
    copier h free addr = Except.ok (a, ws, free1) →
      free = ws.map Prod.fst ++ free1
      ∧ a ∈ ws.map Prod.fst
      ∧ ∀ H : Heap, (∀ p ∈ ws, H p.1 = p.2) →
          (∀ vb, childMaps H a vb = childMaps h addr vb)
          ∧ (∀ b ∈ childReach H a, b ∈ ws.map Prod.fst)

/-- Per-entry postcondition of the copy walk: an absent source entry is
copied raw, a huge-page entry verbatim, and a next-level entry keeps its
present and page-size bits while its rewritten address points at a copied
child with the same mappings, reaching only keys of the write list. -/
def EntryCopied (childMaps : Heap → ℕ → ℕ → List (ℕ × ℕ))
    (childReach : Heap → ℕ → List ℕ) (huge : Bool) (h H : Heap)
    (e te : ℕ) (keys : List ℕ) : Prop :=
  (present e = false → te = e)
  ∧ (present e = true → huge = true → page_size e = true → te = e)
  ∧ (present e = true → (huge = true → page_size e = false) →
      present te = true ∧ page_size te = page_size e
        ∧ (∀ vb, childMaps H (entry_address te) vb = childMaps h (entry_address e) vb)
        ∧ (∀ b ∈ childReach H (entry_address te), b ∈ keys))

/-- Congruence predicate: the leaf mappings of a subtree depend only on
the tables the subtree reaches. -/
def MapsCongr (childMaps : Heap → ℕ → ℕ → List (ℕ × ℕ))
    (childReach : Heap → ℕ → List ℕ) : Prop :=
  ∀ h1 h2 : Heap, ∀ a : ℕ, (∀ c ∈ childReach h1 a, h2 c = h1 c) →
    ∀ vb, childMaps h2 a vb = childMaps h1 a vb

/-! ### Concrete allocator states used to evaluate the source behaviour -/

/-- Node memory that is all zero. -/
def memZero : ℕ → LinkedListNode := fun _ => ⟨0, 0⟩

/-- Allocator state with a null head pointer. -/
def allocStateNullHead : MemoryMapAllocator :=
  { physical_memory_offset := 0, first_node := 0, mem := memZero }

/-- Allocator state whose only node is a 3-page run at 0x1000 with null
next pointer (offset 0): a non-empty free list with 3 free pages. -/
def allocStateOneRun : MemoryMapAllocator :=
  { physical_memory_offset := 0
    first_node := 0x1000
    mem := fun a => if a = 0x1000 then ⟨3, 0⟩ else ⟨0, 0⟩ }

/-- Allocator state whose head node at 0x1000 is a 2-page run followed by a
1-page run at 0x9000. -/
def allocStateTwoPages : MemoryMapAllocator :=
  { physical_memory_offset := 0
    first_node := 0x1000
    mem := fun a => if a = 0x1000 then ⟨2, 0x9000⟩ else if a = 0x9000 then ⟨1, 0⟩ else ⟨0, 0⟩ }

/-- Allocator state whose head node at 0x1000 is a 1-page run followed by a
1-page run at 0x9000. -/
def allocStateOnePage : MemoryMapAllocator :=
  { physical_memory_offset := 0
    first_node := 0x1000
    mem := fun a => if a = 0x1000 then ⟨1, 0x9000⟩ else if a = 0x9000 then ⟨1, 0⟩ else ⟨0, 0⟩ }

/-- Allocator state whose head node at 0x1000 is a 3-page run followed by a
1-page run at 0x9000. -/
def allocStateThreePages : MemoryMapAllocator :=
  { physical_memory_offset := 0
    first_node := 0x1000
    mem := fun a => if a = 0x1000 then ⟨3, 0x9000⟩ else if a = 0x9000 then ⟨1, 0⟩ else ⟨0, 0⟩ }

/-- Allocator state whose only node is a 5-page run with null next pointer:
allocate signals exhaustion here (null next check) although pages remain. -/
def allocStateExhausted : MemoryMapAllocator :=
  { physical_memory_offset := 0
    first_node := 0x1000
    mem := fun a => if a = 0x1000 then ⟨5, 0⟩ else ⟨0, 0⟩ }

/-- The heap with every table zeroed. -/
def heapEmpty : Heap := fun _ => Table.zero

/-- A frame supply of three fresh frame-aligned addresses. -/
def freeSupply3 : List ℕ := [0x100000, 0x101000, 0x102000]

/-- A frame supply of six fresh frame-aligned addresses. -/
def freeSupply6 : List ℕ := [0x100000, 0x101000, 0x102000, 0x103000, 0x104000, 0x105000]

/-- A heap whose root table at 0x1000 has entry 0 present (raw value 1). -/
def heapPresentZero : Heap := hupd heapEmpty 0x1000 (tupd Table.zero (idx 0) 1)

/-- A two-level heap for the deep-copy witness: the PML4 at 0x1000 has
entry 0 present addressing the Pdpt at 0x2000 (raw value 0x2001), and the
Pdpt maps a huge 1GB page at entry 0 (raw value 0x81: present and
page-size). -/
def heapCopyWitness : Heap :=
  hupd (hupd heapEmpty 0x1000 (tupd Table.zero (idx 0) 0x2001))
    0x2000 (tupd Table.zero (idx 0) 0x81)

/-- Fresh supply for the deep-copy witness. -/
def freeCopyWitness : List ℕ := [0x10000, 0x11000]

/-- The result of the deep copy of heapCopyWitness. -/
def copyWitnessRun : Except String (ℕ × List (ℕ × Table) × List ℕ) :=
  PML4.copy heapCopyWitness freeCopyWitness 0x1000

/-- The root address produced by copyWitnessRun. -/
def copyWitnessRoot : ℕ :=
  match copyWitnessRun with
  | Except.ok (a, _, _) => a
  | Except.error _ => 0

/-- The write list produced by copyWitnessRun. -/
def copyWitnessWrites : List (ℕ × Table) :=
  match copyWitnessRun with
  | Except.ok (_, ws, _) => ws
  | Except.error _ => []

/-- The remaining supply produced by copyWitnessRun. -/
def copyWitnessRest : List ℕ :=
  match copyWitnessRun with
  | Except.ok (_, _, f) => f
  | Except.error _ => []

/-- The scenario memory map of the spec: one usable entry, base 0x1000,
length 0x4000 (4 pages). -/
def memoryMapScenario : List MemmapEntry := [⟨0x1000, 0x4000, true⟩]

/-- The allocator built by new from the scenario memory map with offset 0
over all-zero initial memory. -/
def allocScenario : MemoryMapAllocator :=
  MemoryMapAllocator.new memoryMapScenario 0 memZero

/-! ## Theorems -/

/-- For a u64 value, the sign_extension field is the plain right shift by 48
(the mod by the field width is redundant). -/
theorem sign_extension_eq_shift (v : ℕ) (hv : v < 2 ^ 64) :
    VirtualAddress.sign_extension v = v >>> 48 := by
  have hlt : v >>> 48 < 2 ^ 16 := by
    rw [Nat.shiftRight_eq_div_pow]
    apply Nat.div_lt_of_lt_mul
    have h : (2 : ℕ) ^ 48 * 2 ^ 16 = 2 ^ 64 := by rw [← pow_add]
    omega
  unfold VirtualAddress.sign_extension
  exact Nat.mod_eq_of_lt hlt

/-- Bit 8 of the pml4_index field is bit 47 of the raw address. -/
theorem pml4_index_testBit_eight (v : ℕ) :
    (VirtualAddress.pml4_index v).testBit 8 = v.testBit 47 := by
  unfold VirtualAddress.pml4_index
  rw [Nat.testBit_mod_two_pow, Nat.testBit_shiftRight]
  simp

/-- The mask test x and (1 shl 8) picks out bit 8 of x. -/
theorem and_shiftLeft_eight (x : ℕ) :
    x &&& (1 <<< 8) = if x.testBit 8 then 1 <<< 8 else 0 := by
  have h : (1 <<< 8 : ℕ) = 2 ^ 8 := by decide
  rw [h, Nat.and_two_pow]
  cases hx : x.testBit 8 <;> simp

/-- Bits 63:48 of a u64 value are all clear exactly when the shift by 48 is
zero. -/
theorem shift48_eq_zero_iff (v : ℕ) (hv : v < 2 ^ 64) :
    v >>> 48 = 0 ↔ ∀ i, 48 ≤ i → i < 64 → v.testBit i = false := by
  constructor
  · intro h i h48 h64
    have heq : v.testBit i = (v >>> 48).testBit (i - 48) := by
      rw [Nat.testBit_shiftRight]
      congr 1
      omega
    rw [heq, h, Nat.zero_testBit]
  · intro h
    apply Nat.eq_of_testBit_eq
    intro j
    rw [Nat.testBit_shiftRight, Nat.zero_testBit]
    by_cases hj : 48 + j < 64
    · exact h _ (by omega) hj
    · exact Nat.testBit_lt_two_pow
        (lt_of_lt_of_le hv (Nat.pow_le_pow_right (by norm_num) (by omega)))

/-- Bits 63:48 of a u64 value are all set exactly when the shift by 48 is
0xFFFF. -/
theorem shift48_eq_ffff_iff (v : ℕ) (hv : v < 2 ^ 64) :
    v >>> 48 = 0xFFFF ↔ ∀ i, 48 ≤ i → i < 64 → v.testBit i = true := by
  have hffff : (0xFFFF : ℕ) = 2 ^ 16 - 1 := by norm_num
  constructor
  · intro h i h48 h64
    have heq : v.testBit i = (v >>> 48).testBit (i - 48) := by
      rw [Nat.testBit_shiftRight]
      congr 1
      omega
    rw [heq, h, hffff, Nat.testBit_two_pow_sub_one]
    simp
    omega
  · intro h
    apply Nat.eq_of_testBit_eq
    intro j
    rw [Nat.testBit_shiftRight, hffff, Nat.testBit_two_pow_sub_one]
    by_cases hj : j < 16
    · simp [hj]
      exact h _ (by omega) (by omega)
    · simp [hj]
      exact Nat.testBit_lt_two_pow
        (lt_of_lt_of_le hv (Nat.pow_le_pow_right (by norm_num) (by omega)))

/-- Claim C7: for every 64-bit value v, VirtualAddress::create(v) succeeds
if and only if bits 63:48 of v all equal bit 47 of v; on non-canonical
input it fails (panics) rather than constructing a value. -/
theorem virtualAddress_create_canonical_iff (v : ℕ) (hv : v < 2 ^ 64) :
    (VirtualAddress.create v).isOk = true ↔
      ∀ i, 48 ≤ i → i < 64 → v.testBit i = v.testBit 47 := by
  have hse := sign_extension_eq_shift v hv
  have hok : (VirtualAddress.create v).isOk = true ↔
      ((VirtualAddress.sign_extension v = 0
          ∧ VirtualAddress.pml4_index v &&& (1 <<< 8) = 0)
        ∨ (VirtualAddress.sign_extension v = 0xFFFF
          ∧ VirtualAddress.pml4_index v &&& (1 <<< 8) = 1 <<< 8)) := by
    unfold VirtualAddress.create
    split
    · next hcond => exact iff_of_true rfl hcond
    · next hcond => exact iff_of_false (by decide) hcond
  have hand := and_shiftLeft_eight (VirtualAddress.pml4_index v)
  have hbit := pml4_index_testBit_eight v
  rw [hok, hse]
  constructor
  · rintro (⟨hz, hb⟩ | ⟨hf, hb⟩)
    · have hb47 : v.testBit 47 = false := by
        by_contra hc
        rw [← hbit] at hc
        simp at hc
        rw [hand, hc] at hb
        simp at hb
      intro i h48 h64
      rw [hb47, (shift48_eq_zero_iff v hv).mp hz i h48 h64]
    · have hb47 : v.testBit 47 = true := by
        by_contra hc
        rw [← hbit] at hc
        simp at hc
        rw [hand, hc] at hb
        simp at hb
      intro i h48 h64
      rw [hb47, (shift48_eq_ffff_iff v hv).mp hf i h48 h64]
  · intro h
    cases hb47 : v.testBit 47 with
    | false =>
      left
      constructor
      · exact (shift48_eq_zero_iff v hv).mpr (fun i h48 h64 => by rw [h i h48 h64, hb47])
      · rw [hand, hbit, hb47]
        simp
    | true =>
      right
      constructor
      · exact (shift48_eq_ffff_iff v hv).mpr (fun i h48 h64 => by rw [h i h48 h64, hb47])
      · rw [hand, hbit, hb47]
        simp

/-- Witness for claim C7 at the concrete canonical address 0x1000: create
succeeds there, so by the theorem bit 50 agrees with bit 47. -/
theorem virtualAddress_create_canonical_iff_witness :
    (0x1000 : ℕ).testBit 50 = (0x1000 : ℕ).testBit 47 :=
  (virtualAddress_create_canonical_iff 0x1000 (by norm_num)).mp (by decide)
    50 (by norm_num) (by norm_num)

/-- Claim C8 (refutation by evaluation): with DIRECT_MAP_START = 2 ^ 40,
PHYSICAL_MEMORY_SIZE = 2 ^ 30 and v = 2 ^ 40 + 0x2000, try_from_virtual
succeeds with physical address v - DIRECT_MAP_START = 0x2000, but
from_virtual panics, because the source passes the raw virtual address
(not the computed physical_address local) to PhysicalAddress::new, whose
bound check v < PHYSICAL_MEMORY_SIZE fails.  So the two constructors do
not succeed together, refuting the claimed equivalence. -/
theorem from_virtual_try_from_virtual_diverge :
    DirectMappedAddress.try_from_virtual (2 ^ 40) (2 ^ 30) (2 ^ 40 + 0x2000)
        = some 0x2000
      ∧ (DirectMappedAddress.from_virtual (2 ^ 40) (2 ^ 30) (2 ^ 40 + 0x2000)).isOk
        = false := by
  constructor
  · decide
  · decide

/-- Claim C1 (refutation by evaluation): on a non-empty free list holding a
3-page run whose node has a null next pointer, allocate returns the null
frame (starting address 0) instead of a Some real-frame value, even though
pages are available; and on a null head pointer allocate panics inside the
allocator ("First node is null!") instead of returning the recoverable
None value.  The allocate of the source returns Frame, not Option of
Frame, so the empty list is never reported as None. -/
theorem allocate_no_option_result :
    MemoryMapAllocator.allocate allocStateOneRun = Except.ok (0, allocStateOneRun)
      ∧ MemoryMapAllocator.allocate allocStateNullHead
        = Except.error "First node is null!" := by
  exact ⟨rfl, rfl⟩

/-- Claim C2 (refutation by evaluation): allocate never writes node memory
back.  With a 2-page head run the returned frame address is
base + (size - 1) * 4096 = 0x2000 as claimed, but the state is returned
unchanged, so the stored size field still reads 2 instead of 1.  With a
1-page head run the head advances to the next node, but the consumed page
at 0x1000 still holds its old node header ⟨1, 0x9000⟩ - it is not cleared
to size = 0, next = null. -/
theorem allocate_no_size_decrement_no_clear :
    MemoryMapAllocator.allocate allocStateTwoPages
        = Except.ok (0x2000, allocStateTwoPages)
      ∧ allocStateTwoPages.mem 0x1000 = ⟨2, 0x9000⟩
      ∧ MemoryMapAllocator.allocate allocStateOnePage
        = Except.ok (0x1000, { allocStateOnePage with first_node := 0x9000 })
      ∧ ({ allocStateOnePage with first_node := 0x9000 }).mem 0x1000 = ⟨1, 0x9000⟩
      ∧ (⟨1, 0x9000⟩ : LinkedListNode) ≠ ⟨0, 0⟩ := by
  refine ⟨rfl, rfl, rfl, rfl, by decide⟩

/-- Claim C3 (refutation by evaluation): the scenario memory map reports 4
usable pages, but after new over all-zero memory the free list sums to 0,
because the initialization loop of new never writes the node headers back
to memory; moreover two successive allocate calls on a well-formed 3-page
head run both return the same physical address 0x3000, because the size
decrement is never stored. -/
theorem new_free_list_sum_and_duplicate_frames :
    usablePages memoryMapScenario = 4
      ∧ ((freeList allocScenario.mem 16 allocScenario.first_node).map
          LinkedListNode.size).sum = 0
      ∧ MemoryMapAllocator.allocateRun allocStateThreePages 0
        = Except.ok (0x3000, allocStateThreePages)
      ∧ MemoryMapAllocator.allocateRun allocStateThreePages 1
        = Except.ok (0x3000, allocStateThreePages) := by
  refine ⟨by decide, rfl, rfl, rfl⟩

/-- Helper for the exhaustion claim: when an allocate call signals
exhaustion (panic or null frame) from a state whose head pointer differs
from the direct-map offset (the head node is not at physical page 0, which
the data model reserves), the call either panics or returns the null frame
with the state unchanged. -/
theorem allocate_exhaustion_cases (s : MemoryMapAllocator)
    (hfn : s.first_node < 2 ^ 64) (hoff : s.physical_memory_offset < 2 ^ 64)
    (hne : s.first_node ≠ s.physical_memory_offset)
    (hex : MemoryMapAllocator.reportsExhaustion (MemoryMapAllocator.allocate s) = true) :
    (∃ e, MemoryMapAllocator.allocate s = Except.error e)
      ∨ MemoryMapAllocator.allocate s = Except.ok (0, s) := by
  have hN : (2 : ℕ) ^ 64 = 18446744073709551616 := by norm_num
  by_cases h1 : s.first_node = 0
  · refine Or.inl ⟨"First node is null!", ?_⟩
    simp only [MemoryMapAllocator.allocate, h1, if_true]
  · by_cases h2 : (s.mem s.first_node).next = 0
    · right
      simp only [MemoryMapAllocator.allocate, Frame.from_starting_address, h1, h2,
        if_true, if_false, ite_true, ite_false, eq_self_iff_true]
      norm_num
    · by_cases h3 : (s.mem s.first_node).size = 1
      · by_cases h4 :
          (s.first_node + 2 ^ 64 - s.physical_memory_offset % 2 ^ 64) % 2 ^ 64 &&& 0xFFF = 0
        · exfalso
          have hval : MemoryMapAllocator.allocate s
              = Except.ok
                ((s.first_node + 2 ^ 64 - s.physical_memory_offset % 2 ^ 64) % 2 ^ 64,
                  { s with first_node := (s.mem s.first_node).next }) := by
            simp only [MemoryMapAllocator.allocate, Frame.from_starting_address, h1, h2, h3,
              h4, if_true, if_false, ite_true, ite_false]
          rw [hval] at hex
          simp only [MemoryMapAllocator.reportsExhaustion, beq_iff_eq] at hex
          rw [hN] at hex hfn hoff
          omega
        · refine Or.inl ⟨"assertion failed: starting_address and 0xFFF == 0", ?_⟩
          simp only [MemoryMapAllocator.allocate, Frame.from_starting_address, h1, h2, h3,
            h4, if_true, if_false, ite_true, ite_false]
      · by_cases h4 :
          (((s.mem s.first_node).size + 2 ^ 64 - 1) % 2 ^ 64 * 0x1000
            + (s.first_node + 2 ^ 64 - s.physical_memory_offset % 2 ^ 64) % 2 ^ 64) % 2 ^ 64
              &&& 0xFFF = 0
        · have hval : MemoryMapAllocator.allocate s
              = Except.ok
                ((((s.mem s.first_node).size + 2 ^ 64 - 1) % 2 ^ 64 * 0x1000
                  + (s.first_node + 2 ^ 64 - s.physical_memory_offset % 2 ^ 64) % 2 ^ 64)
                    % 2 ^ 64, s) := by
            simp only [MemoryMapAllocator.allocate, Frame.from_starting_address, h1, h2, h3,
              h4, if_true, if_false, ite_true, ite_false]
          rw [hval] at hex
          simp only [MemoryMapAllocator.reportsExhaustion, beq_iff_eq] at hex
          rw [hval, hex]
          exact Or.inr rfl
        · refine Or.inl ⟨"assertion failed: starting_address and 0xFFF == 0", ?_⟩
          simp only [MemoryMapAllocator.allocate, Frame.from_starting_address, h1, h2, h3,
            h4, if_true, if_false, ite_true, ite_false]

/-- Claim C9: once an allocate call reports exhaustion - which in the
source is a panic on a null head pointer or the null-frame return that its
comment documents as the no-pages-available signal - every later allocate
call in a run without free reports exhaustion as well, and never again
yields a frame with a nonzero address.  The side conditions say the state
is a u64 state whose head node is not at physical page 0 (page 0 is
reserved by the data model). -/
theorem allocate_exhaustion_is_sticky (s : MemoryMapAllocator)
    (hfn : s.first_node < 2 ^ 64) (hoff : s.physical_memory_offset < 2 ^ 64)
    (hne : s.first_node ≠ s.physical_memory_offset)
    (hex : MemoryMapAllocator.reportsExhaustion (MemoryMapAllocator.allocate s) = true) :
    ∀ n, MemoryMapAllocator.reportsExhaustion (MemoryMapAllocator.allocateRun s n) = true := by
  intro n
  rcases allocate_exhaustion_cases s hfn hoff hne hex with ⟨e, he⟩ | hok
  · cases n with
    | zero => simp [MemoryMapAllocator.allocateRun, he, MemoryMapAllocator.reportsExhaustion]
    | succ n =>
      simp [MemoryMapAllocator.allocateRun, he, MemoryMapAllocator.reportsExhaustion]
  · induction n with
    | zero => simp [MemoryMapAllocator.allocateRun, hok, MemoryMapAllocator.reportsExhaustion]
    | succ n ih =>
      simpa [MemoryMapAllocator.allocateRun, hok] using ih

/-- Witness for claim C9: the state with a single 5-page run and null next
pointer signals exhaustion on the first call, and the third call still
signals exhaustion. -/
theorem allocate_exhaustion_is_sticky_witness :
    MemoryMapAllocator.reportsExhaustion
      (MemoryMapAllocator.allocateRun allocStateExhausted 2) = true :=
  allocate_exhaustion_is_sticky allocStateExhausted (by decide) (by decide) (by decide)
    (by decide) 2

/-- Helper: a successful childOrNew either descends (heap and supply
unchanged) or consumes the head of the supply for a fresh zeroed table. -/
theorem childOrNew_cases (h : Heap) (free : List ℕ) (e : ℕ) (b : Bool)
    (a : ℕ) (h1 : Heap) (free1 : List ℕ)
    (hok : childOrNew h free e b = Except.ok (a, h1, free1)) :
    (h1 = h ∧ free1 = free)
      ∨ (∃ rest, free = a :: rest ∧ free1 = rest ∧ h1 = hupd h a Table.zero) := by
  unfold childOrNew newTable at hok
  by_cases hp : present e = true
  · rw [if_pos hp] at hok
    by_cases hh : b = true ∧ page_size e = true
    · rw [if_pos hh] at hok
      exact Except.noConfusion hok
    · rw [if_neg hh] at hok
      simp only [Except.ok.injEq, Prod.mk.injEq] at hok
      exact Or.inl ⟨hok.2.1.symm, hok.2.2.symm⟩
  · rw [if_neg hp] at hok
    cases free with
    | nil => exact Except.noConfusion hok
    | cons a0 rest =>
      simp only [Except.ok.injEq, Prod.mk.injEq] at hok
      exact Or.inr ⟨rest, by rw [hok.1], hok.2.2.symm, by rw [← hok.2.1, hok.1]⟩

/-- Claim C10: when PML4::map returns normally (no huge-page entry on the
walk, leaf not already present, allocator not exhausted, frame aligned - a
failed assert is a panic and the function does not return), every table
reachable from the top-level table holds exactly the entries it held
before the call: all entry updates hit by-value local copies that are
never stored, so no present bit becomes set and no leaf entry comes to
hold the frame.  The side condition says the frames the allocator would
hand out are not table frames of the hierarchy itself. -/
theorem map_preserves_reachable_tables (h : Heap) (free : List ℕ) (root frame va : ℕ)
    (w nx : Bool) (h' : Heap) (free' : List ℕ)
    (hfree : ∀ a ∈ free, a ∉ reach h root)
    (hok : PML4.map h free root frame va w nx = Except.ok (h', free')) :
    ∀ a ∈ reach h root, h' a = h a := by
  simp only [PML4.map] at hok
  split at hok
  · exact Except.noConfusion hok
  · rename_i pdpt h1 free1 hs1
    have hag1 : (∀ a ∈ reach h root, h1 a = h a) ∧ (∀ x ∈ free1, x ∈ free) := by
      rcases childOrNew_cases _ _ _ _ _ _ _ hs1 with ⟨hh, hf⟩ | ⟨rest, hfr, hf1, hh⟩
      · subst hh; subst hf; exact ⟨fun a _ => rfl, fun x hx => hx⟩
      · subst hh; subst hf1
        refine ⟨fun a ha => ?_, fun x hx => by rw [hfr]; exact List.mem_cons_of_mem _ hx⟩
        unfold hupd
        rw [if_neg]
        intro hcontra
        exact hfree pdpt (by rw [hfr]; exact List.mem_cons_self _ _) (hcontra ▸ ha)
    split at hok
    · exact Except.noConfusion hok
    · rename_i pd h2 free2 hs2
      have hag2 : (∀ a ∈ reach h root, h2 a = h a) ∧ (∀ x ∈ free2, x ∈ free) := by
        rcases childOrNew_cases _ _ _ _ _ _ _ hs2 with ⟨hh, hf⟩ | ⟨rest, hfr, hf1, hh⟩
        · subst hh; subst hf; exact hag1
        · subst hh; subst hf1
          refine ⟨fun a ha => ?_,
            fun x hx => hag1.2 _ (by rw [hfr]; exact List.mem_cons_of_mem _ hx)⟩
          have hpd : pd ∈ free := hag1.2 _ (by rw [hfr]; exact List.mem_cons_self _ _)
          unfold hupd
          rw [if_neg, hag1.1 a ha]
          intro hcontra
          exact hfree pd hpd (hcontra ▸ ha)
      split at hok
      · exact Except.noConfusion hok
      · rename_i pt h3 free3 hs3
        have hag3 : (∀ a ∈ reach h root, h3 a = h a) := by
          rcases childOrNew_cases _ _ _ _ _ _ _ hs3 with ⟨hh, hf⟩ | ⟨rest, hfr, hf1, hh⟩
          · subst hh; exact hag2.1
          · subst hh
            intro a ha
            have hpt : pt ∈ free := hag2.2 _ (by rw [hfr]; exact List.mem_cons_self _ _)
            unfold hupd
            rw [if_neg, hag2.1 a ha]
            intro hcontra
            exact hfree pt hpt (hcontra ▸ ha)
        split at hok
        · exact Except.noConfusion hok
        · split at hok
          · exact Except.noConfusion hok
          · simp only [Except.ok.injEq, Prod.mk.injEq] at hok
            intro a ha
            rw [← hok.1]
            exact hag3 a ha

set_option maxRecDepth 100000 in
/-- Witness for claim C10: mapping virtual address 0x1000 to frame 0x2000
through the empty hierarchy rooted at 0x1000 consumes three fresh tables
and leaves the root table (the only reachable one) untouched. -/
theorem map_preserves_reachable_tables_witness :
    (hupd (hupd (hupd heapEmpty 0x100000 Table.zero) 0x101000 Table.zero)
      0x102000 Table.zero) 0x1000 = heapEmpty 0x1000 :=
  map_preserves_reachable_tables heapEmpty freeSupply3 0x1000 0x2000 0x1000 true false
    (hupd (hupd (hupd heapEmpty 0x100000 Table.zero) 0x101000 Table.zero)
      0x102000 Table.zero) []
    (by decide) rfl 0x1000 (by decide)

/-- Claim C4 (refutation by evaluation): two successive PML4::map calls
with the same virtual address 0x1000 on the same initially empty hierarchy
both return normally - the second call does not abort, because the first
call never stored any entry (all its writes hit dead local copies), so the
leaf presence assert sees an absent entry again. -/
theorem map_twice_does_not_abort :
    (PML4.mapTwice heapEmpty freeSupply6 0x1000 0x2000 0x1000 true false).isOk
      = true := by
  rfl

/-- Helper: flatMap is congruent in the function on members. -/
theorem flatMap_congr_mem {α β : Type} (l : List α) (f g : α → List β)
    (h : ∀ i ∈ l, f i = g i) : l.flatMap f = l.flatMap g := by
  induction l with
  | nil => rfl
  | cons x xs ih =>
    simp only [List.flatMap_cons]
    rw [h x (List.mem_cons_self _ _), ih (fun i hi => h i (List.mem_cons_of_mem _ hi))]

/-- Helper: lookup finds the stored table of a member when keys are
distinct. -/
theorem lookup_eq_some_of_mem (ws : List (ℕ × Table))
    (hnd : (ws.map Prod.fst).Nodup) (p : ℕ × Table) (hp : p ∈ ws) :
    ws.lookup p.1 = some p.2 := by
  induction ws with
  | nil => cases hp
  | cons q rest ih =>
    rcases List.mem_cons.mp hp with rfl | hmem
    · simp [List.lookup]
    · have hkey : p.1 ∈ rest.map Prod.fst := List.mem_map_of_mem _ hmem
      have hne : (p.1 == q.1) = false := by
        rw [beq_eq_false_iff_ne]
        intro hq
        exact (List.nodup_cons.mp (by simpa using hnd)).1 (hq ▸ hkey)
      simp only [List.lookup, hne]
      exact ih (List.nodup_cons.mp (by simpa using hnd)).2 hmem

/-- Helper: lookup misses when the key is absent. -/
theorem lookup_eq_none_of_not_mem (ws : List (ℕ × Table)) (x : ℕ)
    (hx : x ∉ ws.map Prod.fst) : ws.lookup x = none := by
  induction ws with
  | nil => rfl
  | cons q rest ih =>
    have hne : (x == q.1) = false := by
      rw [beq_eq_false_iff_ne]
      intro hq
      exact hx (by simp [hq])
    simp only [List.lookup, hne]
    exact ih (fun hmem => hx (by simp at hmem ⊢; exact Or.inr hmem))

/-- set_address keeps the present bit. -/
theorem present_set_address (e a : ℕ) : present (set_address e a) = present e := by
  unfold present set_address
  simp only [Nat.testBit_or, Nat.testBit_and, Nat.testBit_xor, Nat.testBit_shiftLeft,
    Nat.testBit_two_pow_sub_one, Nat.testBit_mod_two_pow, Nat.testBit_shiftRight]
  simp

/-- set_address keeps the page-size bit. -/
theorem page_size_set_address (e a : ℕ) : page_size (set_address e a) = page_size e := by
  unfold page_size set_address
  simp only [Nat.testBit_or, Nat.testBit_and, Nat.testBit_xor, Nat.testBit_shiftLeft,
    Nat.testBit_two_pow_sub_one, Nat.testBit_mod_two_pow, Nat.testBit_shiftRight]
  simp

/-- set_address followed by address() returns the stored frame-aligned
address below 2 ^ 52. -/
theorem entry_address_set_address (e a : ℕ) (hal : a &&& 0xFFF = 0)
    (hlt : a < 2 ^ 52) : entry_address (set_address e a) = a := by
  have hlow : ∀ i, i < 12 → a.testBit i = false := by
    intro i hi
    have h0 : (a &&& 0xFFF).testBit i = false := by
      rw [hal]
      exact Nat.zero_testBit i
    have h4095 : (0xFFF : ℕ) = 2 ^ 12 - 1 := by norm_num
    rw [Nat.testBit_and, h4095, Nat.testBit_two_pow_sub_one] at h0
    simpa [hi] using h0
  apply Nat.eq_of_testBit_eq
  intro i
  unfold entry_address set_address
  by_cases h12 : 12 ≤ i
  · by_cases h52 : i < 52
    · simp only [Nat.testBit_shiftLeft, Nat.testBit_mod_two_pow, Nat.testBit_shiftRight,
        Nat.testBit_or, Nat.testBit_and, Nat.testBit_xor, Nat.testBit_two_pow_sub_one]
      have e1 : 12 + (i - 12) = i := by omega
      have e2 : decide (i ≥ 12) = true := by simp [h12]
      have e3 : decide (i - 12 < 40) = true := by simp; omega
      have e4 : decide (i < 64) = true := by simp; omega
      simp [e1, e2, e3, e4]
    · have hge : a.testBit i = false :=
        Nat.testBit_lt_two_pow
          (lt_of_lt_of_le hlt (Nat.pow_le_pow_right (by norm_num) (by omega)))
      simp only [Nat.testBit_shiftLeft, Nat.testBit_mod_two_pow, hge]
      have e3 : decide (i - 12 < 40) = false := by simp; omega
      simp [e3]
  · have hlo : a.testBit i = false := hlow i (by omega)
    simp only [Nat.testBit_shiftLeft, hlo]
    have e2 : decide (i ≥ 12) = false := by simp; omega
    simp [e2]

/-- EntryCopied is monotone in the key list. -/
theorem entryCopied_mono (childMaps : Heap → ℕ → ℕ → List (ℕ × ℕ))
    (childReach : Heap → ℕ → List ℕ) (huge : Bool) (h H : Heap) (e te : ℕ)
    (keys keys2 : List ℕ) (hsub : ∀ b ∈ keys, b ∈ keys2)
    (hec : EntryCopied childMaps childReach huge h H e te keys) :
    EntryCopied childMaps childReach huge h H e te keys2 := by
  obtain ⟨h1, h2, h3⟩ := hec
  refine ⟨h1, h2, fun hp hh => ?_⟩
  obtain ⟨g1, g2, g3, g4⟩ := h3 hp hh
  exact ⟨g1, g2, g3, fun b hb => hsub b (g4 b hb)⟩

/-- The leaf-table copier satisfies the copier specification. -/
theorem copyPageTable_ok : CopierOk copyPageTable ptMappings ptReach := by
  intro h free addr a ws free1 hal hok
  cases free with
  | nil => exact Except.noConfusion hok
  | cons a0 rest =>
    simp only [copyPageTable, Except.ok.injEq, Prod.mk.injEq] at hok
    obtain ⟨ha, hws, hf⟩ := hok
    subst ha
    rw [← hws, ← hf]
    refine ⟨rfl, by simp, fun H hH => ?_⟩
    have hHa : H a0 = h addr := hH (a0, h addr) (by simp)
    constructor
    · intro vb
      simp only [ptMappings, hHa]
    · intro b hb
      simp only [ptReach, List.mem_singleton] at hb
      simp [hb]

/-- The per-entry copy walk satisfies: the new writes extend the
accumulator, consume exactly their keys from the supply, leave entries
outside the index list untouched, and establish EntryCopied for every
visited index under any heap realizing the new writes. -/
theorem copyEntries_ok
    (child : Heap → List ℕ → ℕ → Except String (ℕ × List (ℕ × Table) × List ℕ))
    (childMaps : Heap → ℕ → ℕ → List (ℕ × ℕ)) (childReach : Heap → ℕ → List ℕ)
    (hchild : CopierOk child childMaps childReach) (huge : Bool) (h : Heap) (addr : ℕ) :
    ∀ (is : List (Fin 512)) (t : Table) (ws0 : List (ℕ × Table)) (free : List ℕ)
      (t1 : Table) (ws2 : List (ℕ × Table)) (free2 : List ℕ),
      (∀ b ∈ free, b &&& 0xFFF = 0 ∧ b < 2 ^ 52) →
      copyEntries child huge h addr is t ws0 free = Except.ok (t1, ws2, free2) →
      ∃ ws1, ws2 = ws0 ++ ws1
        ∧ free = ws1.map Prod.fst ++ free2
        ∧ (∀ j, j ∉ is → t1 j = t j)
        ∧ ∀ H : Heap, (∀ p ∈ ws1, H p.1 = p.2) →
            ∀ j ∈ is, EntryCopied childMaps childReach huge h H (h addr j) (t1 j)
              (ws1.map Prod.fst) := by
  intro is
  induction is with
  | nil =>
    intro t ws0 free t1 ws2 free2 hal hok
    simp only [copyEntries, Except.ok.injEq, Prod.mk.injEq] at hok
    obtain ⟨ht, hws, hf⟩ := hok
    exact ⟨[], by rw [← hws, List.append_nil], by rw [hf]; simp, fun j _ => by rw [← ht],
      fun H _ j hj => absurd hj (List.not_mem_nil j)⟩
  | cons i is ih =>
    intro t ws0 free t1 ws2 free2 hal hok
    simp only [copyEntries] at hok
    split at hok
    · -- absent entry: raw copy, no writes
      rename_i hp
      obtain ⟨ws1, hws, hfr, hun, hrel⟩ := ih _ _ _ _ _ _ hal hok
      refine ⟨ws1, hws, hfr, ?_, ?_⟩
      · intro j hj
        have hji : j ≠ i := fun hji => hj (hji ▸ List.mem_cons_self _ _)
        rw [hun j (fun hjs => hj (List.mem_cons_of_mem _ hjs))]
        unfold tupd
        rw [if_neg hji]
      · intro H hH j hj
        rcases List.mem_cons.mp hj with rfl | hjs
        · by_cases hjis : j ∈ is
          · exact hrel H hH j hjis
          · have ht1 : t1 j = h addr j := by
              rw [hun j hjis]
              unfold tupd
              rw [if_pos rfl]
            unfold EntryCopied
            refine ⟨fun _ => ht1, fun hpr _ _ => ?_, fun hpr _ => ?_⟩
            · rw [hpr] at hp
              exact Bool.noConfusion hp
            · rw [hpr] at hp
              exact Bool.noConfusion hp
        · exact hrel H hH j hjs
    · -- present entry: huge-page or next-level
      rename_i hp
      split at hok
      · -- huge-page entry: verbatim copy, no writes
        rename_i hh
        obtain ⟨ws1, hws, hfr, hun, hrel⟩ := ih _ _ _ _ _ _ hal hok
        refine ⟨ws1, hws, hfr, ?_, ?_⟩
        · intro j hj
          have hji : j ≠ i := fun hji => hj (hji ▸ List.mem_cons_self _ _)
          rw [hun j (fun hjs => hj (List.mem_cons_of_mem _ hjs))]
          unfold tupd
          rw [if_neg hji]
        · intro H hH j hj
          rcases List.mem_cons.mp hj with rfl | hjs
          · by_cases hjis : j ∈ is
            · exact hrel H hH j hjis
            · have ht1 : t1 j = h addr j := by
                rw [hun j hjis]
                unfold tupd
                rw [if_pos rfl]
              unfold EntryCopied
              refine ⟨fun hpr => absurd hpr hp, fun _ _ _ => ht1, fun _ hcond => ?_⟩
              rw [hcond hh.1] at hh
              exact absurd hh.2 (by simp)
          · exact hrel H hH j hjs
      · -- next-level entry: copy the child, rewrite the address field
        rename_i hh
        split at hok
        · exact Except.noConfusion hok
        · rename_i c wsC freeC hc
          have hpr : present (h addr i) = true := by
            cases hcase : present (h addr i) with
            | false => exact absurd hcase hp
            | true => rfl
          have hcond : huge = true → page_size (h addr i) = false := by
            intro hg
            cases hcase : page_size (h addr i) with
            | false => rfl
            | true => exact absurd ⟨hg, hcase⟩ hh
          obtain ⟨hfreeq, hcmem, hcH⟩ := hchild h free (entry_address (h addr i)) c wsC freeC hal hc
          have halC : ∀ b ∈ freeC, b &&& 0xFFF = 0 ∧ b < 2 ^ 52 := fun b hb =>
            hal b (by rw [hfreeq]; exact List.mem_append_right _ hb)
          obtain ⟨ws1, hws, hfr, hun, hrel⟩ := ih _ _ _ _ _ _ halC hok
          refine ⟨wsC ++ ws1, by rw [hws, List.append_assoc], ?_, ?_, ?_⟩
          · rw [hfreeq, hfr, List.map_append, List.append_assoc]
          · intro j hj
            have hji : j ≠ i := fun hji => hj (hji ▸ List.mem_cons_self _ _)
            rw [hun j (fun hjs => hj (List.mem_cons_of_mem _ hjs))]
            unfold tupd
            rw [if_neg hji]
          · intro H hH j hj
            have hHC : ∀ p ∈ wsC, H p.1 = p.2 := fun p hp' =>
              hH p (List.mem_append_left _ hp')
            have hH1 : ∀ p ∈ ws1, H p.1 = p.2 := fun p hp' =>
              hH p (List.mem_append_right _ hp')
            rcases List.mem_cons.mp hj with rfl | hjs
            · by_cases hjis : j ∈ is
              · refine entryCopied_mono _ _ _ _ _ _ _ _ _ ?_ (hrel H hH1 j hjis)
                intro b hb
                rw [List.map_append]
                exact List.mem_append_right _ hb
              · have ht1 : t1 j = set_address (h addr j) c := by
                  rw [hun j hjis]
                  unfold tupd
                  rw [if_pos rfl]
                have hcal : c &&& 0xFFF = 0 ∧ c < 2 ^ 52 :=
                  hal c (by rw [hfreeq]; exact List.mem_append_left _ hcmem)
                have hea : entry_address (t1 j) = c := by
                  rw [ht1]
                  exact entry_address_set_address _ _ hcal.1 hcal.2
                unfold EntryCopied
                refine ⟨fun hpf => absurd hpf (by rw [hpr]; simp),
                  fun _ hg hps => absurd hps (by rw [hcond hg]; simp),
                  fun _ _ => ?_⟩
                obtain ⟨hcm, hcr⟩ := hcH H hHC
                refine ⟨by rw [ht1, present_set_address, hpr],
                  by rw [ht1, page_size_set_address], fun vb => ?_, fun b hb => ?_⟩
                · rw [hea]
                  exact hcm vb
                · rw [hea] at hb
                  rw [List.map_append]
                  exact List.mem_append_left _ (hcr b hb)
            · refine entryCopied_mono _ _ _ _ _ _ _ _ _ ?_ (hrel H hH1 j hjs)
              intro b hb
              rw [List.map_append]
              exact List.mem_append_right _ hb

set_option maxRecDepth 40000 in
/-- A level copier built from a sound child copier satisfies the copier
specification for the maps and reach functions of the level. -/
theorem copyLevel_ok
    (child : Heap → List ℕ → ℕ → Except String (ℕ × List (ℕ × Table) × List ℕ))
    (childMaps : Heap → ℕ → ℕ → List (ℕ × ℕ)) (childReach : Heap → ℕ → List ℕ)
    (hchild : CopierOk child childMaps childReach)
    (huge : Bool) (hugeAddr : ℕ → ℕ) (vaOf : ℕ → Fin 512 → ℕ) :
    CopierOk (copyLevel child huge)
      (fun h a vb => levelMapsT childMaps huge hugeAddr vaOf h (h a) vb)
      (fun h a => a :: levelReachT childReach huge h (h a)) := by
  intro h free addr a ws free1 hal hok
  cases free with
  | nil => exact Except.noConfusion hok
  | cons a0 rest =>
    have hrw : copyLevel child huge h (a0 :: rest) addr
        = (match copyEntries child huge h addr (List.finRange 512) Table.zero [] rest with
          | Except.error e => Except.error e
          | Except.ok (t, ws2, free2) => Except.ok (a0, (a0, t) :: ws2, free2)) := rfl
    rw [hrw] at hok
    split at hok
    · exact Except.noConfusion hok
    · rename_i t wsE freeE hE
      simp only [Except.ok.injEq, Prod.mk.injEq] at hok
      obtain ⟨ha, hws, hf⟩ := hok
      subst ha
      have halR : ∀ b ∈ rest, b &&& 0xFFF = 0 ∧ b < 2 ^ 52 := fun b hb =>
        hal b (List.mem_cons_of_mem _ hb)
      obtain ⟨ws1, hws1, hfr, hun, hrel⟩ :=
        copyEntries_ok child childMaps childReach hchild huge h addr
          (List.finRange 512) Table.zero [] rest t wsE freeE halR hE
      have hwsE : wsE = ws1 := by simpa using hws1
      subst hwsE
      refine ⟨?_, ?_, ?_⟩
      · rw [← hws, ← hf]
        simp only [List.map_cons, List.cons_append]
        rw [hfr]
      · rw [← hws]
        simp
      · intro H hH
        have hHt : H a0 = t := hH (a0, t) (by rw [← hws]; exact List.mem_cons_self _ _)
        have hH1 : ∀ p ∈ wsE, H p.1 = p.2 := fun p hp =>
          hH p (by rw [← hws]; exact List.mem_cons_of_mem _ hp)
        have hentry := hrel H hH1
        constructor
        · intro vb
          show levelMapsT childMaps huge hugeAddr vaOf H (H a0) vb
              = levelMapsT childMaps huge hugeAddr vaOf h (h addr) vb
          rw [hHt]
          unfold levelMapsT
          apply flatMap_congr_mem
          intro i hi
          obtain ⟨habs, hverb, hrec⟩ := hentry i (List.mem_finRange i)
          cases hpcase : present (h addr i) with
          | false =>
            rw [habs hpcase]
            simp [hpcase]
          | true =>
            by_cases hhp : huge = true ∧ page_size (h addr i) = true
            · rw [hverb hpcase hhp.1 hhp.2]
              simp [hpcase, hhp.1, hhp.2]
            · have hcnd : huge = true → page_size (h addr i) = false := fun hg => by
                cases hcase : page_size (h addr i) with
                | false => rfl
                | true => exact absurd ⟨hg, hcase⟩ hhp
              obtain ⟨hpte, hpste, hmaps, _⟩ := hrec hpcase hcnd
              simp [hpte, hpste, hpcase, hhp, hmaps]
        · intro b hb
          replace hb : b ∈ a0 :: levelReachT childReach huge H (H a0) := hb
          rw [hHt] at hb
          rcases List.mem_cons.mp hb with rfl | hbr
          · rw [← hws]
            simp
          · unfold levelReachT at hbr
            obtain ⟨i, hi, hbi⟩ := List.mem_flatMap.mp hbr
            replace hbi : b ∈ (if present (t i) = true then
                (if huge = true ∧ page_size (t i) = true then []
                 else childReach H (entry_address (t i)))
              else []) := hbi
            obtain ⟨habs, hverb, hrec⟩ := hentry i (List.mem_finRange i)
            cases hpcase : present (h addr i) with
            | false =>
              rw [habs hpcase, hpcase] at hbi
              simp at hbi
            | true =>
              by_cases hhp : huge = true ∧ page_size (h addr i) = true
              · rw [hverb hpcase hhp.1 hhp.2, hpcase] at hbi
                simp [hhp] at hbi
              · have hcnd : huge = true → page_size (h addr i) = false := fun hg => by
                  cases hcase : page_size (h addr i) with
                  | false => rfl
                  | true => exact absurd ⟨hg, hcase⟩ hhp
                obtain ⟨hpte, hpste, _, hreach⟩ := hrec hpcase hcnd
                simp only [hpte, hpste] at hbi
                have hbc : b ∈ childReach H (entry_address (t i)) := by
                  by_cases hg : huge = true
                  · simp [hcnd hg] at hbi
                    exact hbi
                  · have : huge = false := by
                      cases huge
                      · rfl
                      · exact absurd rfl hg
                    simp [this] at hbi
                    exact hbi
                rw [← hws]
                simp only [List.map_cons]
                exact List.mem_cons_of_mem _ (hreach b hbc)

/-- The page-directory copier satisfies the copier specification. -/
theorem copyPageDirectory_ok : CopierOk copyPageDirectory pdMappings pdReach :=
  copyLevel_ok copyPageTable ptMappings ptReach copyPageTable_ok true hugePageAddress2M
    (fun vb i => vb + (i.1 <<< 21))

/-- The Pdpt copier satisfies the copier specification. -/
theorem copyPdpt_ok : CopierOk copyPdpt pdptMappings pdptReach :=
  copyLevel_ok copyPageDirectory pdMappings pdReach copyPageDirectory_ok true
    hugePageAddress1G (fun vb i => vb + (i.1 <<< 30))

/-- The whole-hierarchy copier satisfies the copier specification. -/
theorem copyPml4_ok : CopierOk PML4.copy pml4Mappings reach :=
  copyLevel_ok copyPdpt pdptMappings pdptReach copyPdpt_ok false (fun _ => 0)
    (fun vb i => vb + va_base i)

/-- Leaf-table mappings depend only on the reached table. -/
theorem ptMappings_congr : MapsCongr ptMappings ptReach := by
  intro h1 h2 a hag vb
  have ha : h2 a = h1 a := hag a (by simp [ptReach])
  simp only [ptMappings, ha]

/-- Level mappings depend only on the tables the level reaches. -/
theorem levelMaps_congr (childMaps : Heap → ℕ → ℕ → List (ℕ × ℕ))
    (childReach : Heap → ℕ → List ℕ) (hc : MapsCongr childMaps childReach)
    (huge : Bool) (hugeAddr : ℕ → ℕ) (vaOf : ℕ → Fin 512 → ℕ) :
    MapsCongr (fun h a vb => levelMapsT childMaps huge hugeAddr vaOf h (h a) vb)
      (fun h a => a :: levelReachT childReach huge h (h a)) := by
  intro h1 h2 a hag vb
  have ha : h2 a = h1 a := hag a (List.mem_cons_self _ _)
  show levelMapsT childMaps huge hugeAddr vaOf h2 (h2 a) vb
      = levelMapsT childMaps huge hugeAddr vaOf h1 (h1 a) vb
  rw [ha]
  unfold levelMapsT
  apply flatMap_congr_mem
  intro i hi
  by_cases hp : present (h1 a i) = true
  · by_cases hh : huge = true ∧ page_size (h1 a i) = true
    · simp [hp, hh]
    · have hsub : ∀ c ∈ childReach h1 (entry_address (h1 a i)), h2 c = h1 c := by
        intro c hcmem
        apply hag
        refine List.mem_cons_of_mem _ ?_
        unfold levelReachT
        apply List.mem_flatMap.mpr
        refine ⟨i, hi, ?_⟩
        simp only [hp, if_true]
        simp [hh]
        exact hcmem
      have heq := hc h1 h2 (entry_address (h1 a i)) hsub (vaOf vb i)
      simp [hp, hh, heq]
  · simp [hp]

/-- Page-directory mappings depend only on the reached tables. -/
theorem pdMappings_congr : MapsCongr pdMappings pdReach :=
  levelMaps_congr ptMappings ptReach ptMappings_congr true hugePageAddress2M
    (fun vb i => vb + (i.1 <<< 21))

/-- Pdpt mappings depend only on the reached tables. -/
theorem pdptMappings_congr : MapsCongr pdptMappings pdptReach :=
  levelMaps_congr pdMappings pdReach pdMappings_congr true hugePageAddress1G
    (fun vb i => vb + (i.1 <<< 30))

/-- PML4 mappings depend only on the reached tables. -/
theorem pml4Mappings_congr : MapsCongr pml4Mappings reach :=
  levelMaps_congr pdptMappings pdptReach pdptMappings_congr false (fun _ => 0)
    (fun vb i => vb + va_base i)

/-- The enumeration of a hierarchy depends only on its reachable tables. -/
theorem mappings_congr (h1 h2 : Heap) (root : ℕ)
    (hag : ∀ c ∈ reach h1 root, h2 c = h1 c) :
    mappings h2 root = mappings h1 root :=
  pml4Mappings_congr h1 h2 root hag 0

/-- Claim C5 (spec-modelled: PML4::copy is absent from the source and is
modelled from spec.md §4.3): the deep copy of the hierarchy at root yields
a hierarchy at the fresh root whose enumeration equals the enumeration of
the source (so the virtual-address set is identical, and huge-page entries
carry identical frame addresses, having been copied verbatim), every table
of the copy is a freshly allocated frame distinct from every table of the
source (in particular from its counterpart), the copy leaves every source
table untouched, and overwriting any table of the copy afterwards neither
changes any source table nor the source enumeration.  Side conditions: the
allocator supply is duplicate-free, frame-aligned below 2 ^ 52, and
disjoint from the source tables. -/
theorem copy_deep_fidelity (h : Heap) (free : List ℕ) (root : ℕ)
    (a' : ℕ) (ws : List (ℕ × Table)) (free' : List ℕ)
    (hnodup : free.Nodup)
    (hdisj : ∀ b ∈ free, b ∉ reach h root)
    (hal : ∀ b ∈ free, b &&& 0xFFF = 0 ∧ b < 2 ^ 52)
    (hok : PML4.copy h free root = Except.ok (a', ws, free')) :
    mappings (applyWrites ws h) a' = mappings h root
      ∧ (∀ b ∈ reach (applyWrites ws h) a', b ∉ reach h root)
      ∧ (∀ b ∈ reach h root, applyWrites ws h b = h b)
      ∧ (∀ b t, b ∈ reach (applyWrites ws h) a' →
          (∀ c ∈ reach h root, hupd (applyWrites ws h) b t c = h c)
            ∧ mappings (hupd (applyWrites ws h) b t) root = mappings h root) := by
  obtain ⟨hfreeq, hmem, hH⟩ := copyPml4_ok h free root a' ws free' hal hok
  have hkeysnd : (ws.map Prod.fst).Nodup := by
    rw [hfreeq] at hnodup
    exact hnodup.of_append_left
  have hkeysfree : ∀ b ∈ ws.map Prod.fst, b ∈ free := fun b hb => by
    rw [hfreeq]
    exact List.mem_append_left _ hb
  have hreal : ∀ p ∈ ws, applyWrites ws h p.1 = p.2 := by
    intro p hp
    unfold applyWrites
    rw [lookup_eq_some_of_mem ws hkeysnd p hp]
  obtain ⟨hmaps, hreach⟩ := hH (applyWrites ws h) hreal
  have hag : ∀ b ∈ reach h root, applyWrites ws h b = h b := by
    intro b hb
    unfold applyWrites
    rw [lookup_eq_none_of_not_mem]
    intro hbk
    exact hdisj b (hkeysfree b hbk) hb
  have hfreshreach : ∀ b ∈ reach (applyWrites ws h) a', b ∉ reach h root := by
    intro b hb hbr
    exact hdisj b (hkeysfree b (hreach b hb)) hbr
  refine ⟨hmaps 0, hfreshreach, hag, ?_⟩
  intro b t hb
  have hbk : b ∈ ws.map Prod.fst := hreach b hb
  have hbnr : b ∉ reach h root := fun hbr => hdisj b (hkeysfree b hbk) hbr
  have hagu : ∀ c ∈ reach h root, hupd (applyWrites ws h) b t c = h c := by
    intro c hc
    unfold hupd
    rw [if_neg (show ¬ c = b from fun hcb => hbnr (hcb ▸ hc)), hag c hc]
  exact ⟨hagu, mappings_congr h (hupd (applyWrites ws h) b t) root hagu⟩

set_option maxRecDepth 400000 in
/-- Witness for claim C5 at the two-level hierarchy heapCopyWitness with a
fresh two-frame supply: the copy succeeds, and the source root table is
untouched by applying the copy writes. -/
theorem copy_deep_fidelity_witness :
    applyWrites copyWitnessWrites heapCopyWitness 0x1000 = heapCopyWitness 0x1000 :=
  (copy_deep_fidelity heapCopyWitness freeCopyWitness 0x1000 copyWitnessRoot
    copyWitnessWrites copyWitnessRest (by decide) (by decide) (by decide) rfl).2.2.1
    0x1000 (by decide)

/-- Claim C6 (refutation by evaluation): on a hierarchy whose PML4 entry 0
is present, the first next() call of a fresh iterator (current = 0) runs
into the unfinished tail of the source (the body ends at the comment Todo,
handle huge pages without returning a value) instead of yielding the
present leaf mappings; no code path of next() yields any item. -/
theorem iterator_reaches_unimplemented_tail :
    PageTableIterator.next heapPresentZero 0x1000 20 0
      = Except.error "not yet implemented: handle huge pages" := by
  rfl

end RexKernel
